import Mathlib

/-!
Verification development for the senior medication reminder application
(`script.js`).  The data model and each operation are shallowly embedded:
`this.medications`, `this.history` and `this.settings` become the fields of
`AppState`; `localStorage` becomes an association list of string blobs; the
wall clock (`new Date()`) becomes explicit `today` / `nowDay` / `nowMillis`
arguments; `Date.now().toString()` id generation becomes explicit id
arguments; `setTimeout` registrations become a list of pending timer
entries.  User-confirmed dialog paths (`showConfirmDialog` callbacks) are
modelled as the confirmed branch having been chosen.
-/

/-- Medication record as built by `addMedication`. -/
structure Medication where
  id : String
  name : String
  dosage : String
  timesPerDay : Nat
  times : List String
  createdAt : String
  isActive : Bool
deriving DecidableEq, Repr

/-- Action log entry as built by `recordMedicationAction`. -/
structure HistoryEntry where
  id : String
  medicationId : String
  medicationName : String
  action : String
  scheduledTime : String
  actualTime : String
  date : String
deriving DecidableEq, Repr

/-- User settings record (`this.settings`). -/
structure Settings where
  soundEnabled : Bool
  vibrationEnabled : Bool
  highContrast : Bool
  textSize : String
deriving DecidableEq, Repr

/-- In-memory application state: `this.medications`, `this.history`,
`this.settings`. -/
structure AppState where
  medications : List Medication
  history : List HistoryEntry
  settings : Settings
deriving DecidableEq, Repr

/-- Embedding of `isMedicationTakenToday(medicationId, time)`: scans
`this.history` for an entry matching medication id, scheduled time, the
current calendar day string and action `taken`.  The wall-clock day
(`new Date().toDateString()`) is passed explicitly as `today`. -/
def isMedicationTakenToday (history : List HistoryEntry) (today medicationId time : String) : Bool :=
  history.any fun entry =>
    entry.medicationId == medicationId &&
    entry.scheduledTime == time &&
    entry.date == today &&
    entry.action == ("taken")

/-- Embedding of `recordMedicationAction(medicationId, action, time)`:
no-ops when the medication id does not resolve, otherwise appends a log
entry carrying the denormalized medication name, the given action, the
scheduled time, the wall-clock instant and calendar day. -/
def recordMedicationAction (s : AppState) (today actualTime newId medicationId action time : String) : AppState :=
  match s.medications.find? (fun med => med.id == medicationId) with
  | none => s
  | some medication =>
      { s with history := s.history ++
          [{ id := newId, medicationId := medicationId, medicationName := medication.name,
             action := action, scheduledTime := time, actualTime := actualTime, date := today }] }

/-- Embedding of `markMedicationTaken(medicationId, time)`. -/
def markMedicationTaken (s : AppState) (today actualTime newId medicationId time : String) : AppState :=
  recordMedicationAction s today actualTime newId medicationId ("taken") time

/-- Embedding of `removeMedicationRecord(medicationId, time)`: filters out
every history entry whose medication id, scheduled time and date all match,
regardless of the action kind of the entry. -/
def removeMedicationRecord (history : List HistoryEntry) (today medicationId time : String) : List HistoryEntry :=
  history.filter fun entry =>
    !(entry.medicationId == medicationId &&
      entry.scheduledTime == time &&
      entry.date == today)

/-- Embedding of `toggleMedicationStatus(medicationId, time)` with the undo
confirmation dialog answered positively: when the slot is currently taken
the matching records are removed, otherwise the slot is marked taken. -/
def toggleMedicationStatus (s : AppState) (today actualTime newId medicationId time : String) : AppState :=
  if isMedicationTakenToday s.history today medicationId time then
    { s with history := removeMedicationRecord s.history today medicationId time }
  else
    markMedicationTaken s today actualTime newId medicationId time

/-- Embedding of the confirmed branch of `deleteMedication(medicationId)`:
keeps exactly the medications whose id differs. -/
def deleteMedication (s : AppState) (medicationId : String) : AppState :=
  { s with medications := s.medications.filter fun med => !(med.id == medicationId) }

/-- Milliseconds-of-day of an `HH:MM` dose time, as produced by
`scheduledTime.setHours(hours, minutes, 0, 0)`. -/
def millisOfTime (h m : Nat) : Nat :=
  (h * 60 + m) * 60000

/-- Embedding of the target computation in `scheduleNotificationForTime`:
the dose time is placed on the current day, and if that instant is at or
before `now` (`scheduledTime <= now`) the target moves to the next day.
`nowDay` is the current calendar day index and `nowMillis` the
milliseconds elapsed since its midnight. -/
def scheduleNotificationTarget (nowDay nowMillis h m : Nat) : Nat × Nat :=
  if millisOfTime h m ≤ nowMillis then (nowDay + 1, millisOfTime h m)
  else (nowDay, millisOfTime h m)

/-- Absolute milliseconds of a (day, milliseconds-of-day) instant. -/
def absoluteMillis (day ms : Nat) : Nat :=
  day * 86400000 + ms

/-- Key of the persisted medications blob. -/
def medicationsKey : String := "seniorMed_medications"

/-- Key of the persisted history blob. -/
def historyKey : String := "seniorMed_history"

/-- Key of the persisted settings blob. -/
def settingsKey : String := "seniorMed_settings"

/-- Embedding of `localStorage.getItem`. -/
def getItem (storage : List (String × String)) (key : String) : Option String :=
  (storage.find? fun pair => pair.1 == key).map Prod.snd

/-- Embedding of `localStorage.removeItem`. -/
def removeItem (storage : List (String × String)) (key : String) : List (String × String) :=
  storage.filter fun pair => !(pair.1 == key)

/-- Embedding of the confirmed branch of `clearAllData`: empties the
medication and history collections and removes their two storage blobs;
neither the in-memory settings nor the settings blob is touched (the
function never calls `saveData`). -/
def clearAllData (s : AppState) (storage : List (String × String)) : AppState × List (String × String) :=
  ({ s with medications := [], history := [] },
   removeItem (removeItem storage medicationsKey) historyKey)

/-- Removing a key makes it unreadable. -/
theorem getItem_removeItem_self (storage : List (String × String)) (key : String) :
    getItem (removeItem storage key) key = none := by
  induction storage with
  | nil => rfl
  | cons pair rest ih =>
      unfold removeItem getItem at ih ⊢
      rw [List.filter_cons]
      by_cases h : pair.1 = key
      · rw [if_neg (by simp [h])]
        exact ih
      · rw [if_pos (by simp [h])]
        rw [List.find?_cons_of_neg _ (by simp [h])]
        exact ih

/-- Removing one key leaves every other key unchanged. -/
theorem getItem_removeItem_other (storage : List (String × String)) (key k : String)
    (h : k ≠ key) :
    getItem (removeItem storage key) k = getItem storage k := by
  have hfind : ∀ (pair : String × String) (l : List (String × String)),
      List.find? (fun q => q.1 == k) (pair :: l) =
        if pair.1 = k then some pair else List.find? (fun q => q.1 == k) l := by
    intro pair l
    by_cases hpk : pair.1 = k
    · rw [if_pos hpk]
      exact List.find?_cons_of_pos _ (by simp [hpk])
    · rw [if_neg hpk]
      exact List.find?_cons_of_neg _ (by simp [hpk])
  induction storage with
  | nil => rfl
  | cons pair rest ih =>
      unfold removeItem getItem at ih ⊢
      rw [List.filter_cons]
      by_cases h1 : pair.1 = key
      · rw [if_neg (by simp [h1])]
        have h2 : ¬ pair.1 = k := by
          rw [h1]
          exact fun he => h he.symm
        rw [hfind pair rest, if_neg h2]
        exact ih
      · rw [if_pos (by simp [h1])]
        by_cases h2 : pair.1 = k
        · simp [hfind, h2]
        · simpa [hfind, h2] using ih

/-- C1: the status query returns taken exactly when the log holds an entry
whose medication id, scheduled time, calendar day (today) and action
`taken` all match; entries with action missed or skipped, and entries of
any other calendar day, never make the result taken. -/
theorem c1_statusOf_taken_iff (history : List HistoryEntry) (today medicationId time : String) :
    isMedicationTakenToday history today medicationId time = true ↔
      ∃ entry ∈ history, entry.medicationId = medicationId ∧ entry.scheduledTime = time ∧
        entry.date = today ∧ entry.action = "taken" := by
  simp [isMedicationTakenToday, List.any_eq_true, Bool.and_eq_true, beq_iff_eq, and_assoc]

/-- C8: for a well-formed clock and dose time, the armed target is the
next occurrence of the dose time strictly after now: the next day when the
time of day has already passed (or is exactly now), today otherwise. -/
theorem c8_schedule_target_correct (nowDay nowMillis h m : Nat)
    (hnow : nowMillis < 86400000) (hh : h < 24) (hm : m < 60) :
    absoluteMillis nowDay nowMillis <
      absoluteMillis (scheduleNotificationTarget nowDay nowMillis h m).1
        (scheduleNotificationTarget nowDay nowMillis h m).2 ∧
    (millisOfTime h m ≤ nowMillis →
      scheduleNotificationTarget nowDay nowMillis h m = (nowDay + 1, millisOfTime h m)) ∧
    (nowMillis < millisOfTime h m →
      scheduleNotificationTarget nowDay nowMillis h m = (nowDay, millisOfTime h m)) := by
  by_cases hc : millisOfTime h m ≤ nowMillis
  · unfold scheduleNotificationTarget
    rw [if_pos hc]
    refine ⟨?_, fun _ => rfl, fun hlt => absurd hc (Nat.not_le.mpr hlt)⟩
    unfold absoluteMillis
    omega
  · have hlt := Nat.lt_of_not_le hc
    unfold scheduleNotificationTarget
    rw [if_neg hc]
    refine ⟨?_, fun hle => absurd hle hc, fun _ => rfl⟩
    unfold absoluteMillis
    omega

/-- C8 witness: at 09:00 a dose time of 08:00 targets the next day and a
dose time of 10:00 targets today, as in the spec examples. -/
theorem c8_witness :
    scheduleNotificationTarget 0 32400000 8 0 = (1, 28800000) ∧
    scheduleNotificationTarget 0 32400000 10 0 = (0, 36000000) :=
  ⟨(c8_schedule_target_correct 0 32400000 8 0 (by decide) (by decide) (by decide)).2.1 (by decide),
   (c8_schedule_target_correct 0 32400000 10 0 (by decide) (by decide) (by decide)).2.2 (by decide)⟩

/-- C10: the confirmed clear-all operation empties the medication and
history collections and removes their blobs, while the settings record and
the settings blob are left untouched. -/
theorem c10_clearAllData_frame (s : AppState) (storage : List (String × String)) :
    (clearAllData s storage).1.medications = [] ∧
    (clearAllData s storage).1.history = [] ∧
    (clearAllData s storage).1.settings = s.settings ∧
    getItem (clearAllData s storage).2 settingsKey = getItem storage settingsKey ∧
    getItem (clearAllData s storage).2 medicationsKey = none ∧
    getItem (clearAllData s storage).2 historyKey = none := by
  refine ⟨rfl, rfl, rfl, ?_, ?_, ?_⟩
  · have h1 : getItem (removeItem (removeItem storage medicationsKey) historyKey) settingsKey =
        getItem (removeItem storage medicationsKey) settingsKey :=
      getItem_removeItem_other _ _ _ (by decide)
    have h2 : getItem (removeItem storage medicationsKey) settingsKey = getItem storage settingsKey :=
      getItem_removeItem_other _ _ _ (by decide)
    exact h1.trans h2
  · have h1 : getItem (removeItem (removeItem storage medicationsKey) historyKey) medicationsKey =
        getItem (removeItem storage medicationsKey) medicationsKey :=
      getItem_removeItem_other _ _ _ (by decide)
    exact h1.trans (getItem_removeItem_self _ _)
  · exact getItem_removeItem_self _ _

/-- Sample medication used for concrete evaluations. -/
def sampleMedication : Medication :=
  { id := "med1", name := "Aspirin", dosage := "81mg", timesPerDay := 2,
    times := [("08:00"), ("20:00")], createdAt := "c0", isActive := true }

/-- Sample missed entry for the 08:00 slot of the sample day. -/
def missedEntry : HistoryEntry :=
  { id := "h1", medicationId := "med1", medicationName := "Aspirin", action := "missed",
    scheduledTime := "08:00", actualTime := "t1", date := "Mon Jan 05 2026" }

/-- Sample taken entry for the 08:00 slot of the sample day. -/
def takenEntry : HistoryEntry :=
  { id := "h2", medicationId := "med1", medicationName := "Aspirin", action := "taken",
    scheduledTime := "08:00", actualTime := "t2", date := "Mon Jan 05 2026" }

/-- Default settings, as in the constructor. -/
def defaultSettings : Settings :=
  { soundEnabled := true, vibrationEnabled := true, highContrast := false, textSize := "normal" }

/-- Sample state whose 08:00 slot holds both a missed and a taken entry. -/
def sampleState : AppState :=
  { medications := [sampleMedication], history := [missedEntry, takenEntry],
    settings := defaultSettings }

/-- C2 counterexample: in a state where the 08:00 slot of the sample day
holds both a missed and a taken entry, the confirmed toggle removes the
missed entry as well, contradicting the claim that only the taken entries
are removed and missed entries for the slot remain. -/
theorem c2_counterexample :
    isMedicationTakenToday sampleState.history ("Mon Jan 05 2026") ("med1") ("08:00") = true ∧
    missedEntry ∈ sampleState.history ∧
    missedEntry ∉
      (toggleMedicationStatus sampleState ("Mon Jan 05 2026") ("t3") ("h3") ("med1") ("08:00")).history := by
  decide

/-- C2 amended: when the slot is taken, the confirmed toggle removes
exactly the log entries matching the (medication, time, today) triple,
regardless of their action kind; every other entry survives, the
medication store is untouched, and the slot is unmarked afterwards. -/
theorem c2_toggle_undo_removes_slot_entries (s : AppState)
    (today actualTime newId medicationId time : String)
    (htaken : isMedicationTakenToday s.history today medicationId time = true) :
    (∀ entry, entry ∈ (toggleMedicationStatus s today actualTime newId medicationId time).history ↔
        entry ∈ s.history ∧
          ¬(entry.medicationId = medicationId ∧ entry.scheduledTime = time ∧ entry.date = today)) ∧
    isMedicationTakenToday (toggleMedicationStatus s today actualTime newId medicationId time).history
      today medicationId time = false ∧
    (toggleMedicationStatus s today actualTime newId medicationId time).medications = s.medications := by
  have hstep : toggleMedicationStatus s today actualTime newId medicationId time =
      { s with history := removeMedicationRecord s.history today medicationId time } := by
    unfold toggleMedicationStatus
    rw [if_pos htaken]
  refine ⟨?_, ?_, ?_⟩
  · intro entry
    rw [hstep]
    simp [removeMedicationRecord, List.mem_filter, Bool.and_eq_true, beq_iff_eq,
      not_and, and_assoc]
    tauto
  · rw [hstep]
    unfold isMedicationTakenToday removeMedicationRecord
    rw [List.any_eq_false]
    intro entry hmem
    rcases List.mem_filter.mp hmem with ⟨-, hpred⟩
    intro hcon
    rw [Bool.not_eq_true'] at hpred
    cases hx : (entry.medicationId == medicationId) <;>
      cases hy : (entry.scheduledTime == time) <;>
        cases hz : (entry.date == today) <;>
          simp_all
  · rw [hstep]

/-- C2 witness: on the sample state the amended toggle behaviour is
realized and the slot ends unmarked. -/
theorem c2_witness :
    isMedicationTakenToday
      (toggleMedicationStatus sampleState ("Mon Jan 05 2026") ("t3") ("h3") ("med1") ("08:00")).history
      ("Mon Jan 05 2026") ("med1") ("08:00") = false :=
  (c2_toggle_undo_removes_slot_entries sampleState ("Mon Jan 05 2026") ("t3") ("h3") ("med1")
    ("08:00") (by decide)).2.1

/-- Embedding of the bucket update inside `groupMedicationsByTime`: if a
group for `time` exists the medication is pushed at its end, otherwise a
new group keyed by `time` is created after the existing ones (object key
insertion order). -/
def addToGroup (groups : List (String × List Medication)) (time : String) (med : Medication) :
    List (String × List Medication) :=
  if groups.any (fun pair => pair.1 == time) then
    groups.map (fun pair => if pair.1 == time then (pair.1, pair.2 ++ [med]) else pair)
  else
    groups ++ [(time, [med])]

/-- Embedding of `groupMedicationsByTime()`: every medication of the store
is pushed into the bucket of each of its times; no `isActive` filtering
occurs anywhere in the source loop. -/
def groupMedicationsByTime (medications : List Medication) : List (String × List Medication) :=
  medications.foldl
    (fun groups med => med.times.foldl (fun g t => addToGroup g t med) groups) []

/-- Embedding of the bucket read `timeGroups[time] || []`. -/
def lookupGroup (groups : List (String × List Medication)) (time : String) : List Medication :=
  match groups.find? (fun pair => pair.1 == time) with
  | some pair => pair.2
  | none => []

/-- A key that no pair carries reads as the empty bucket. -/
theorem lookupGroup_eq_nil_of_not_any (groups : List (String × List Medication)) (t : String)
    (h : (groups.any fun pair => pair.1 == t) = false) :
    lookupGroup groups t = [] := by
  unfold lookupGroup
  have hnone : groups.find? (fun pair => pair.1 == t) = none := by
    rw [List.find?_eq_none]
    intro pair hp
    rcases List.any_eq_false.mp h pair hp with hfalse
    exact hfalse
  rw [hnone]

/-- A nonempty bucket means the key occurs among the group keys. -/
theorem mem_keys_of_lookupGroup_ne_nil (groups : List (String × List Medication)) (t : String)
    (h : lookupGroup groups t ≠ []) :
    t ∈ groups.map Prod.fst := by
  unfold lookupGroup at h
  cases hf : groups.find? (fun pair => pair.1 == t) with
  | none => rw [hf] at h; exact absurd rfl h
  | some pair =>
      have hm := List.mem_of_find?_eq_some hf
      have hk : pair.1 = t := by simpa using List.find?_some hf
      exact hk ▸ List.mem_map_of_mem Prod.fst hm

/-- The map branch of `addToGroup` only changes the bucket of the touched
key. -/
theorem lookupGroup_map_ne (g : List (String × List Medication)) (t' : String) (med : Medication)
    (t : String) (ht : t ≠ t') :
    lookupGroup (g.map fun pair => if pair.1 == t' then (pair.1, pair.2 ++ [med]) else pair) t =
      lookupGroup g t := by
  induction g with
  | nil => rfl
  | cons pair rest ih =>
      unfold lookupGroup
      rw [List.map_cons]
      by_cases hp : pair.1 = t
      · rw [List.find?_cons_of_pos _
            (by
              by_cases hc : (pair.1 == t') = true
              · rw [if_pos hc]
                simp [hp]
              · rw [if_neg hc]
                simp [hp]),
            List.find?_cons_of_pos _ (by simp [hp])]
        have hpt : ¬ ((pair.1 == t') = true) := by simp [hp, ht]
        rw [if_neg hpt]
      · rw [List.find?_cons_of_neg _
            (by
              by_cases hc : (pair.1 == t') = true
              · rw [if_pos hc]
                simp [hp]
              · rw [if_neg hc]
                simp [hp]),
            List.find?_cons_of_neg _ (by simp [hp])]
        exact ih

/-- The map branch of `addToGroup` appends the medication at the end of
the touched bucket, provided the key is present. -/
theorem lookupGroup_map_eq (g : List (String × List Medication)) (t : String) (med : Medication)
    (h : (g.any fun pair => pair.1 == t) = true) :
    lookupGroup (g.map fun pair => if pair.1 == t then (pair.1, pair.2 ++ [med]) else pair) t =
      lookupGroup g t ++ [med] := by
  induction g with
  | nil => simp at h
  | cons pair rest ih =>
      unfold lookupGroup
      rw [List.map_cons]
      by_cases hp : pair.1 = t
      · rw [List.find?_cons_of_pos _
            (by
              by_cases hc : (pair.1 == t) = true
              · rw [if_pos hc]
                simp [hp]
              · rw [if_neg hc]
                simp [hp]),
            List.find?_cons_of_pos _ (by simp [hp])]
        rw [if_pos (by simp [hp])]
      · have hrest : (rest.any fun pair => pair.1 == t) = true := by
          rcases List.any_eq_true.mp h with ⟨q, hq, hqt⟩
          rcases List.mem_cons.mp hq with rfl | hq2
          · exact absurd (by simpa using hqt) hp
          · exact List.any_eq_true.mpr ⟨q, hq2, hqt⟩
        rw [List.find?_cons_of_neg _
            (by
              by_cases hc : (pair.1 == t) = true
              · rw [if_pos hc]
                simp [hp]
              · rw [if_neg hc]
                simp [hp]),
            List.find?_cons_of_neg _ (by simp [hp])]
        exact ih hrest

/-- Appending a fresh singleton group at the end. -/
theorem lookupGroup_append_single (g : List (String × List Medication)) (t' : String)
    (med : Medication) (t : String) :
    lookupGroup (g ++ [(t', [med])]) t =
      if (g.any fun pair => pair.1 == t) = true then lookupGroup g t
      else if t = t' then [med] else [] := by
  unfold lookupGroup
  rw [List.find?_append]
  by_cases hany : (g.any fun pair => pair.1 == t) = true
  · rw [if_pos hany]
    rcases List.any_eq_true.mp hany with ⟨q, hq, hqt⟩
    cases hf : g.find? (fun pair => pair.1 == t) with
    | none =>
        exact absurd hqt (List.find?_eq_none.mp hf q hq)
    | some pair => rfl
  · rw [if_neg hany]
    have hnone : g.find? (fun pair => pair.1 == t) = none := by
      rw [List.find?_eq_none]
      intro pair hp
      exact List.any_eq_false.mp (Bool.eq_false_iff.mpr (fun hcon => hany hcon)) pair hp
    rw [hnone]
    by_cases ht : t = t'
    · subst ht
      simp
    · have hne : ¬ ((t' == t) = true) := by
        simp only [beq_iff_eq]
        exact fun he => ht he.symm
      simp [List.find?, hne, ht]

/-- Effect of one `addToGroup` on an arbitrary bucket. -/
theorem lookupGroup_addToGroup (g : List (String × List Medication)) (t' : String)
    (med : Medication) (t : String) :
    lookupGroup (addToGroup g t' med) t =
      if t = t' then lookupGroup g t ++ [med] else lookupGroup g t := by
  unfold addToGroup
  by_cases hany : (g.any fun pair => pair.1 == t') = true
  · rw [if_pos hany]
    by_cases ht : t = t'
    · subst ht
      rw [if_pos rfl]
      exact lookupGroup_map_eq g t med hany
    · rw [if_neg ht]
      exact lookupGroup_map_ne g t' med t ht
  · rw [if_neg hany]
    rw [lookupGroup_append_single]
    by_cases ht : t = t'
    · subst ht
      rw [if_neg hany, if_pos rfl, if_pos rfl]
      rw [lookupGroup_eq_nil_of_not_any g t (Bool.eq_false_iff.mpr (fun hcon => hany hcon))]
      rfl
    · rw [if_neg ht, if_neg ht]
      by_cases h2 : (g.any fun pair => pair.1 == t) = true
      · rw [if_pos h2]
      · rw [if_neg h2]
        rw [lookupGroup_eq_nil_of_not_any g t (Bool.eq_false_iff.mpr (fun hcon => h2 hcon))]

/-- Multiplicity of a medication in a bucket after one `addToGroup`. -/
theorem count_lookupGroup_addToGroup (g : List (String × List Medication)) (t' : String)
    (med : Medication) (t : String) (m : Medication) :
    (lookupGroup (addToGroup g t' med) t).count m =
      (lookupGroup g t).count m + (if t = t' ∧ med = m then 1 else 0) := by
  rw [lookupGroup_addToGroup]
  by_cases ht : t = t'
  · rw [if_pos ht, List.count_append]
    by_cases hm : med = m
    · rw [if_pos ⟨ht, hm⟩]
      simp [hm]
    · rw [if_neg (fun hand => hm hand.2)]
      have hbe : (med == m) = false := by simp [hm]
      simp [List.count_cons, hbe]
  · rw [if_neg ht, if_neg (fun hand => ht hand.1)]
    simp

/-- Multiplicity of a medication in a bucket after pushing one medication
into the buckets of all its times. -/
theorem count_lookupGroup_timesFold (times : List String) (g : List (String × List Medication))
    (medication : Medication) (t : String) (m : Medication) :
    (lookupGroup (times.foldl (fun gg tt => addToGroup gg tt medication) g) t).count m =
      (lookupGroup g t).count m + (if medication = m then times.count t else 0) := by
  induction times generalizing g with
  | nil => simp
  | cons tt rest ih =>
      rw [List.foldl_cons, ih, count_lookupGroup_addToGroup]
      by_cases hm : medication = m
      · rw [if_pos hm, if_pos hm]
        by_cases ht : t = tt
        · rw [if_pos ⟨ht, hm⟩, List.count_cons]
          have : (tt == t) = true := by simp [ht]
          rw [this]
          simp
          omega
        · rw [if_neg (fun hand => ht hand.1), List.count_cons]
          have hbe : (tt == t) = false := by
            simp only [beq_eq_false_iff_ne, ne_eq]
            exact fun he => ht he.symm
          rw [hbe]
          simp
      · rw [if_neg hm, if_neg hm, if_neg (fun hand => hm hand.2)]

/-- Multiplicity of a medication in a bucket of the full grouping fold. -/
theorem count_lookupGroup_medsFold (meds : List Medication) (g : List (String × List Medication))
    (t : String) (m : Medication) :
    (lookupGroup
        (meds.foldl (fun groups med => med.times.foldl (fun gg tt => addToGroup gg tt med) groups) g)
        t).count m =
      (lookupGroup g t).count m + (List.count m meds) * (List.count t m.times) := by
  induction meds generalizing g with
  | nil => simp
  | cons med rest ih =>
      rw [List.foldl_cons, ih, count_lookupGroup_timesFold]
      by_cases hm : med = m
      · subst hm
        rw [if_pos rfl, List.count_cons]
        simp
        ring
      · rw [if_neg hm, List.count_cons]
        have : (med == m) = false := by simp [hm]
        rw [this]
        simp

/-- Multiplicity of a medication in a bucket of `groupMedicationsByTime`:
each occurrence of the medication in the store contributes one copy per
occurrence of the key among its times; the `isActive` flag plays no role. -/
theorem count_lookupGroup_group (meds : List Medication) (t : String) (m : Medication) :
    (lookupGroup (groupMedicationsByTime meds) t).count m =
      (List.count m meds) * (List.count t m.times) := by
  unfold groupMedicationsByTime
  rw [count_lookupGroup_medsFold]
  simp [lookupGroup]

/-- Bucket membership characterisation: a medication lies in the bucket of
`t` exactly when it lies in the store and `t` is one of its times. -/
theorem mem_lookupGroup_group (meds : List Medication) (t : String) (m : Medication) :
    m ∈ lookupGroup (groupMedicationsByTime meds) t ↔ m ∈ meds ∧ t ∈ m.times := by
  constructor
  · intro hmem
    have hpos : 0 < (List.count m meds) * (List.count t m.times) := by
      rw [← count_lookupGroup_group]
      exact List.count_pos_iff.mpr hmem
    have h1 : List.count m meds ≠ 0 := by
      intro h0
      rw [h0] at hpos
      simp at hpos
    have h2 : List.count t m.times ≠ 0 := by
      intro h0
      rw [h0] at hpos
      simp at hpos
    exact ⟨List.count_pos_iff.mp (Nat.pos_of_ne_zero h1),
      List.count_pos_iff.mp (Nat.pos_of_ne_zero h2)⟩
  · rintro ⟨hm, ht⟩
    have : 0 < (lookupGroup (groupMedicationsByTime meds) t).count m := by
      rw [count_lookupGroup_group]
      exact Nat.mul_pos (List.count_pos_iff.mpr hm) (List.count_pos_iff.mpr ht)
    exact List.count_pos_iff.mp this

/-- Medication with the active flag cleared, used as concrete input. -/
def inactiveMedication : Medication :=
  { id := "med2", name := "VitD", dosage := "", timesPerDay := 1,
    times := [("08:00")], createdAt := "c1", isActive := false }

/-- C3 counterexample: a store holding one medication whose active flag is
false still yields that medication inside the 08:00 time group, so the
claim that an inactive medication appears in no time group fails. -/
theorem c3_counterexample :
    inactiveMedication.isActive = false ∧
    inactiveMedication ∈ lookupGroup (groupMedicationsByTime [inactiveMedication]) ("08:00") := by
  decide

/-- C3 amended: the grouping reads the whole store and ignores the active
flag entirely: any stored medication, in particular one whose active flag
is false, appears in the bucket of each of its configured times. -/
theorem c3_grouping_ignores_active_flag (meds : List Medication) (med : Medication) (t : String)
    (hmem : med ∈ meds) (ht : t ∈ med.times) (hflag : med.isActive = false) :
    med ∈ lookupGroup (groupMedicationsByTime meds) t :=
  (mem_lookupGroup_group meds t med).mpr ⟨hmem, ht⟩

/-- C3 witness: the amended statement applied to the concrete inactive
medication store. -/
theorem c3_witness :
    inactiveMedication ∈ lookupGroup (groupMedicationsByTime [inactiveMedication]) ("20:00" ++ "") ∨
    inactiveMedication ∈ lookupGroup (groupMedicationsByTime [inactiveMedication]) ("08:00") :=
  Or.inr (c3_grouping_ignores_active_flag [inactiveMedication] inactiveMedication ("08:00")
    (by decide) (by decide) (by decide))

/-- The map branch of `addToGroup` keeps the key list unchanged. -/
theorem keys_map_fst_map (g : List (String × List Medication)) (t : String) (med : Medication) :
    ((g.map fun pair => if pair.1 == t then (pair.1, pair.2 ++ [med]) else pair).map Prod.fst) =
      g.map Prod.fst := by
  induction g with
  | nil => rfl
  | cons pair rest ih =>
      rw [List.map_cons, List.map_cons, List.map_cons, ih]
      congr 1
      by_cases hc : (pair.1 == t) = true
      · rw [if_pos hc]
      · rw [if_neg hc]

/-- Effect of one `addToGroup` on the key list. -/
theorem keys_addToGroup (g : List (String × List Medication)) (t : String) (med : Medication) :
    (addToGroup g t med).map Prod.fst =
      if (g.any fun pair => pair.1 == t) = true then g.map Prod.fst
      else g.map Prod.fst ++ [t] := by
  unfold addToGroup
  by_cases hany : (g.any fun pair => pair.1 == t) = true
  · rw [if_pos hany, if_pos hany, keys_map_fst_map]
  · rw [if_neg hany, if_neg hany, List.map_append]
    rfl

/-- One `addToGroup` keeps the key list duplicate-free. -/
theorem keys_nodup_addToGroup (g : List (String × List Medication)) (t : String)
    (med : Medication) (h : (g.map Prod.fst).Nodup) :
    ((addToGroup g t med).map Prod.fst).Nodup := by
  rw [keys_addToGroup]
  by_cases hany : (g.any fun pair => pair.1 == t) = true
  · rwa [if_pos hany]
  · rw [if_neg hany]
    have ht : t ∉ g.map Prod.fst := by
      intro hmem
      rcases List.mem_map.mp hmem with ⟨pair, hp, hfst⟩
      exact hany (List.any_eq_true.mpr ⟨pair, hp, by simp [hfst]⟩)
    refine List.Nodup.append h (List.nodup_singleton t) ?_
    intro a ha hb
    have ha2 : a = t := by simpa using hb
    exact ht (ha2 ▸ ha)

/-- Folding the times of one medication keeps the key list
duplicate-free. -/
theorem keys_nodup_timesFold (times : List String) (g : List (String × List Medication))
    (med : Medication) (h : (g.map Prod.fst).Nodup) :
    ((times.foldl (fun gg tt => addToGroup gg tt med) g).map Prod.fst).Nodup := by
  induction times generalizing g with
  | nil => exact h
  | cons tt rest ih => exact ih _ (keys_nodup_addToGroup g tt med h)

/-- The key list of `groupMedicationsByTime` is duplicate-free. -/
theorem keys_nodup_group (meds : List Medication) :
    ((groupMedicationsByTime meds).map Prod.fst).Nodup := by
  unfold groupMedicationsByTime
  have hgen : ∀ g : List (String × List Medication), (g.map Prod.fst).Nodup →
      ((meds.foldl
          (fun groups med => med.times.foldl (fun gg tt => addToGroup gg tt med) groups)
          g).map Prod.fst).Nodup := by
    induction meds with
    | nil => exact fun g h => h
    | cons med rest ih => exact fun g h => ih _ (keys_nodup_timesFold med.times g med h)
  exact hgen [] (by simp)

/-- With duplicate-free keys, the bucket of the key of a listed pair is
its second component. -/
theorem lookupGroup_of_mem (groups : List (String × List Medication))
    (hnd : (groups.map Prod.fst).Nodup) (p : String × List Medication) (hp : p ∈ groups) :
    lookupGroup groups p.1 = p.2 := by
  induction groups with
  | nil => cases hp
  | cons q rest ih =>
      rcases List.mem_cons.mp hp with rfl | hp2
      · unfold lookupGroup
        rw [List.find?_cons_of_pos _ (by simp)]
      · have hnd2 : (q.1 :: rest.map Prod.fst).Nodup := by rwa [List.map_cons] at hnd
        have hq : q.1 ≠ p.1 := by
          intro he
          exact (List.nodup_cons.mp hnd2).1 (he ▸ List.mem_map_of_mem Prod.fst hp2)
        unfold lookupGroup
        rw [List.find?_cons_of_neg _ (by simp [hq])]
        exact ih (List.nodup_cons.mp hnd2).2 hp2

/-- Counting lemma for filtering a duplicate-free key list by membership
in a duplicate-free sublist of it. -/
theorem length_filter_mem_of_subset (keys times : List String) (hk : keys.Nodup)
    (ht : times.Nodup) (hsub : ∀ t ∈ times, t ∈ keys) :
    (keys.filter fun k => k ∈ times).length = times.length := by
  have h1 : (keys.filter fun k => k ∈ times).Nodup := hk.filter _
  have h2 : (keys.filter fun k => k ∈ times).toFinset = times.toFinset := by
    ext a
    simp only [List.mem_toFinset, List.mem_filter, decide_eq_true_eq]
    constructor
    · rintro ⟨h3, h4⟩
      exact h4
    · intro h3
      exact ⟨hsub a h3, h3⟩
  have h3 := congrArg Finset.card h2
  rwa [List.toFinset_card_of_nodup h1, List.toFinset_card_of_nodup ht] at h3

/-- Code-point lexicographic order on character lists. -/
def lexLe : List Char → List Char → Bool
  | [], _ => true
  | _ :: _, [] => false
  | a :: as, b :: bs =>
    if a.toNat < b.toNat then true
    else if b.toNat < a.toNat then false
    else lexLe as bs

/-- Modelling of the ascending `localeCompare` comparator used by
`renderTodaysSchedule` on well-formed zero-padded `HH:MM` keys: plain
code-point lexicographic string order. -/
def localeLe (a b : String) : Bool := lexLe a.data b.data

/-- Order on time groups by their key. -/
def timeGroupLe (p q : String × List Medication) : Prop := localeLe p.1 q.1 = true

instance : DecidableRel timeGroupLe := fun p q => by
  unfold timeGroupLe
  infer_instance

/-- Embedding of the rendering order of `renderTodaysSchedule`: the entry
list of the grouping, stably sorted by key ascending. -/
def sortedTimeGroups (meds : List Medication) : List (String × List Medication) :=
  List.insertionSort timeGroupLe (groupMedicationsByTime meds)

/-- Totality of the lexicographic comparison. -/
theorem lexLe_total : ∀ x y : List Char, lexLe x y = true ∨ lexLe y x = true := by
  intro x
  induction x with
  | nil => intro y; left; rfl
  | cons a as ih =>
      intro y
      cases y with
      | nil => right; rfl
      | cons b bs =>
          by_cases h1 : a.toNat < b.toNat
          · left
            simp [lexLe, h1]
          · by_cases h2 : b.toNat < a.toNat
            · right
              simp [lexLe, h2]
            · rcases ih bs with h | h
              · left
                simp [lexLe, h1, h2, h]
              · right
                simp [lexLe, h1, h2, h]

/-- Transitivity of the lexicographic comparison. -/
theorem lexLe_trans : ∀ x y z : List Char,
    lexLe x y = true → lexLe y z = true → lexLe x z = true := by
  intro x
  induction x with
  | nil => intro y z h1 h2; rfl
  | cons a as ih =>
      intro y z hxy hyz
      cases y with
      | nil => simp [lexLe] at hxy
      | cons b bs =>
          cases z with
          | nil => simp [lexLe] at hyz
          | cons c cs =>
              by_cases hab : a.toNat < b.toNat
              · have hbc : b.toNat ≤ c.toNat := by
                  by_cases hp1 : b.toNat < c.toNat
                  · omega
                  · by_cases hp2 : c.toNat < b.toNat
                    · simp [lexLe, hp1, hp2] at hyz
                    · omega
                have hac : a.toNat < c.toNat := by omega
                simp [lexLe, hac]
              · by_cases hba : b.toNat < a.toNat
                · simp [lexLe, hab, hba] at hxy
                · simp only [lexLe, if_neg hab, if_neg hba] at hxy
                  by_cases hbc : b.toNat < c.toNat
                  · have hac : a.toNat < c.toNat := by omega
                    simp [lexLe, hac]
                  · by_cases hcb : c.toNat < b.toNat
                    · simp [lexLe, hbc, hcb] at hyz
                    · simp only [lexLe, if_neg hbc, if_neg hcb] at hyz
                      have hnac : ¬ a.toNat < c.toNat := by omega
                      have hnca : ¬ c.toNat < a.toNat := by omega
                      simp only [lexLe, if_neg hnac, if_neg hnca]
                      exact ih bs cs hxy hyz

/-- Totality of the time group order. -/
theorem timeGroupLe_total : ∀ a b : String × List Medication, timeGroupLe a b ∨ timeGroupLe b a :=
  fun a b => lexLe_total a.1.data b.1.data

/-- Transitivity of the time group order. -/
theorem timeGroupLe_trans : ∀ a b c : String × List Medication,
    timeGroupLe a b → timeGroupLe b c → timeGroupLe a c :=
  fun a b c h1 h2 => lexLe_trans a.1.data b.1.data c.1.data h1 h2

/-- The rendered group list is sorted by key ascending. -/
theorem sortedTimeGroups_sorted (meds : List Medication) :
    List.Sorted timeGroupLe (sortedTimeGroups meds) := by
  unfold sortedTimeGroups
  exact @List.sorted_insertionSort _ timeGroupLe _ ⟨timeGroupLe_total⟩ ⟨timeGroupLe_trans⟩ _

/-- C7: a medication stored once whose configured times are distinct
appears in exactly as many time groups as it has times, exactly once per
such group, every such group is keyed by one of its times, and the
rendered group list is sorted ascending by lexicographic comparison of the
keys (and is a permutation of the grouping). -/
theorem c7_dueToday_group_multiplicity (meds : List Medication) (med : Medication)
    (hcount : List.count med meds = 1) (hnd : med.times.Nodup) :
    ((groupMedicationsByTime meds).filter fun p => med ∈ p.2).length = med.times.length ∧
    (∀ p ∈ groupMedicationsByTime meds, med ∈ p.2 → p.1 ∈ med.times ∧ p.2.count med = 1) ∧
    List.Sorted timeGroupLe (sortedTimeGroups meds) ∧
    (sortedTimeGroups meds).Perm (groupMedicationsByTime meds) := by
  have hmed : med ∈ meds := List.count_pos_iff.mp (by rw [hcount]; exact Nat.one_pos)
  have hkeys := keys_nodup_group meds
  refine ⟨?_, ?_, sortedTimeGroups_sorted meds, List.perm_insertionSort _ _⟩
  · have hcongr : ∀ p ∈ groupMedicationsByTime meds,
        (decide (med ∈ p.2)) = (decide (p.1 ∈ med.times)) := by
      intro p hp
      have hlk := lookupGroup_of_mem _ hkeys p hp
      apply decide_eq_decide.mpr
      rw [← hlk, mem_lookupGroup_group]
      constructor
      · rintro ⟨h3, h4⟩
        exact h4
      · intro h3
        exact ⟨hmed, h3⟩
    rw [List.filter_congr hcongr, ← List.countP_eq_length_filter]
    have hmap : List.countP (fun k => decide (k ∈ med.times))
        ((groupMedicationsByTime meds).map Prod.fst) =
        List.countP (fun p => decide (p.1 ∈ med.times)) (groupMedicationsByTime meds) := by
      rw [List.countP_map]
      rfl
    rw [← hmap, List.countP_eq_length_filter]
    apply length_filter_mem_of_subset _ _ hkeys hnd
    intro t htm
    have hmem2 : med ∈ lookupGroup (groupMedicationsByTime meds) t :=
      (mem_lookupGroup_group meds t med).mpr ⟨hmed, htm⟩
    refine mem_keys_of_lookupGroup_ne_nil _ t (fun hnil => ?_)
    rw [hnil] at hmem2
    cases hmem2
  · intro p hp hmedp
    have hlk := lookupGroup_of_mem _ hkeys p hp
    have hpt : p.1 ∈ med.times := by
      have := (mem_lookupGroup_group meds p.1 med).mp (hlk ▸ hmedp)
      exact this.2
    refine ⟨hpt, ?_⟩
    have hc : p.2.count med = List.count med meds * List.count p.1 med.times := by
      rw [← hlk, count_lookupGroup_group]
    rw [hc, hcount, List.count_eq_one_of_mem hnd hpt, one_mul]

/-- C7 witness: the concrete sample medication with two distinct times
realizes the statement. -/
theorem c7_witness :
    ((groupMedicationsByTime [sampleMedication]).filter
        fun p => sampleMedication ∈ p.2).length = sampleMedication.times.length ∧
    (∀ p ∈ groupMedicationsByTime [sampleMedication], sampleMedication ∈ p.2 →
        p.1 ∈ sampleMedication.times ∧ p.2.count sampleMedication = 1) ∧
    List.Sorted timeGroupLe (sortedTimeGroups [sampleMedication]) ∧
    (sortedTimeGroups [sampleMedication]).Perm (groupMedicationsByTime [sampleMedication]) :=
  c7_dueToday_group_multiplicity [sampleMedication] sampleMedication (by decide) (by decide)

/-- Recording an action never touches the medication store. -/
theorem recordMedicationAction_medications (s : AppState)
    (today actualTime newId medicationId action time : String) :
    (recordMedicationAction s today actualTime newId medicationId action time).medications =
      s.medications := by
  cases hf : s.medications.find? (fun med => med.id == medicationId) <;>
    simp [recordMedicationAction, hf]

/-- Recording an action appends at most one entry, and any appended entry
carries the given medication id, action, scheduled time and day. -/
theorem recordMedicationAction_history (s : AppState)
    (today actualTime newId medicationId action time : String) :
    ∃ tail,
      (recordMedicationAction s today actualTime newId medicationId action time).history =
        s.history ++ tail ∧
      ∀ e ∈ tail, e.medicationId = medicationId ∧ e.action = action ∧
        e.scheduledTime = time ∧ e.date = today := by
  cases hf : s.medications.find? (fun med => med.id == medicationId) with
  | none =>
      refine ⟨[], ?_, fun e he => absurd he (List.not_mem_nil e)⟩
      simp [recordMedicationAction, hf]
  | some medication =>
      refine ⟨[HistoryEntry.mk newId medicationId medication.name action time actualTime today],
        ?_, ?_⟩
      · simp [recordMedicationAction, hf]
      · intro e he
        rcases List.mem_singleton.mp he with rfl
        exact ⟨rfl, rfl, rfl, rfl⟩

/-- Marking taken never touches the medication store. -/
theorem markMedicationTaken_medications (s : AppState)
    (today actualTime newId medicationId time : String) :
    (markMedicationTaken s today actualTime newId medicationId time).medications =
      s.medications := by
  unfold markMedicationTaken
  exact recordMedicationAction_medications s today actualTime newId medicationId ("taken") time

/-- Marking taken appends at most one entry of the right shape. -/
theorem markMedicationTaken_history (s : AppState)
    (today actualTime newId medicationId time : String) :
    ∃ tail,
      (markMedicationTaken s today actualTime newId medicationId time).history =
        s.history ++ tail ∧
      ∀ e ∈ tail, e.medicationId = medicationId ∧ e.action = "taken" ∧
        e.scheduledTime = time ∧ e.date = today := by
  unfold markMedicationTaken
  exact recordMedicationAction_history s today actualTime newId medicationId ("taken") time

/-- Extra entries never turn the status query off. -/
theorem isMedicationTakenToday_append (history tail : List HistoryEntry)
    (today medicationId time : String)
    (h : isMedicationTakenToday history today medicationId time = true) :
    isMedicationTakenToday (history ++ tail) today medicationId time = true := by
  unfold isMedicationTakenToday at h ⊢
  rw [List.any_append, h]
  rfl

/-- When the medication id resolves in the store, marking taken makes the
status query true. -/
theorem markMedicationTaken_taken (s : AppState)
    (today actualTime newId medicationId time : String)
    (hf : ∃ m ∈ s.medications, m.id = medicationId) :
    isMedicationTakenToday
      (markMedicationTaken s today actualTime newId medicationId time).history
      today medicationId time = true := by
  rcases hf with ⟨med0, hm0, hid0⟩
  unfold markMedicationTaken recordMedicationAction
  cases hff : s.medications.find? (fun med => med.id == medicationId) with
  | none =>
      have := List.find?_eq_none.mp hff med0 hm0
      simp [hid0] at this
  | some medication =>
      simp [isMedicationTakenToday, List.any_append]

/-- Embedding of the callback body of the `forEach` in
`resolveAllForTime`: already-taken medications are skipped, the others are
marked taken.  The counter numbers the generated entry ids. -/
def resolveStep (today actualTime : String) (ids : Nat → String) (time : String)
    (acc : AppState × Nat) (med : Medication) : AppState × Nat :=
  if isMedicationTakenToday acc.1.history today med.id time then acc
  else (markMedicationTaken acc.1 today actualTime (ids acc.2) med.id time, acc.2 + 1)

/-- Embedding of `resolveAllForTime(time)`: folds the resolve step over
the bucket of `time` in the grouping of the current store. -/
def resolveAllForTime (s : AppState) (today actualTime : String) (ids : Nat → String)
    (time : String) : AppState :=
  ((lookupGroup (groupMedicationsByTime s.medications) time).foldl
    (resolveStep today actualTime ids time) (s, 0)).1

/-- Unfolding equation of the resolve step at an explicit pair. -/
theorem resolveStep_def (today actualTime : String) (ids : Nat → String) (time : String)
    (a : AppState) (n : Nat) (med : Medication) :
    resolveStep today actualTime ids time (a, n) med =
      if isMedicationTakenToday a.history today med.id time then (a, n)
      else (markMedicationTaken a today actualTime (ids n) med.id time, n + 1) := rfl

/-- Fold invariant for `resolveAllForTime`: the store is untouched, the
log is only extended by taken entries for the time and day of slots that
were unmarked at entry, and every listed medication ends up taken. -/
theorem resolveFold_spec (today actualTime : String) (ids : Nat → String) (time : String)
    (l : List Medication) :
    ∀ (a : AppState) (n : Nat),
      (∀ med ∈ l, ∃ m ∈ a.medications, m.id = med.id) →
      ((l.foldl (resolveStep today actualTime ids time) (a, n)).1.medications = a.medications ∧
       (∃ tail,
          (l.foldl (resolveStep today actualTime ids time) (a, n)).1.history =
            a.history ++ tail ∧
          ∀ e ∈ tail, e.scheduledTime = time ∧ e.date = today ∧ e.action = "taken" ∧
            isMedicationTakenToday a.history today e.medicationId time = false) ∧
       (∀ med ∈ l,
          isMedicationTakenToday
            ((l.foldl (resolveStep today actualTime ids time) (a, n)).1).history
            today med.id time = true)) := by
  induction l with
  | nil =>
      intro a n hres
      refine ⟨rfl, ⟨[], by simp, fun e he => absurd he (List.not_mem_nil e)⟩, ?_⟩
      intro med hmem
      cases hmem
  | cons med rest ih =>
      intro a n hres
      rw [List.foldl_cons, resolveStep_def]
      by_cases hc : isMedicationTakenToday a.history today med.id time = true
      · rw [if_pos hc]
        obtain ⟨hmeds, ⟨tail, hhist, htail⟩, htaken⟩ :=
          ih a n (fun m2 hm2 => hres m2 (List.mem_cons_of_mem med hm2))
        refine ⟨hmeds, ⟨tail, hhist, htail⟩, ?_⟩
        intro m2 hm2
        rcases List.mem_cons.mp hm2 with rfl | hm3
        · rw [hhist]
          exact isMedicationTakenToday_append a.history tail today m2.id time hc
        · exact htaken m2 hm3
      · rw [if_neg hc]
        obtain ⟨tail0, h0, htail0⟩ :=
          markMedicationTaken_history a today actualTime (ids n) med.id time
        have hmark : (markMedicationTaken a today actualTime (ids n) med.id time).medications =
            a.medications :=
          markMedicationTaken_medications a today actualTime (ids n) med.id time
        obtain ⟨hmeds, ⟨tail, hhist, htail⟩, htaken⟩ :=
          ih (markMedicationTaken a today actualTime (ids n) med.id time) (n + 1)
            (fun m2 hm2 => by
              rw [hmark]
              exact hres m2 (List.mem_cons_of_mem med hm2))
        refine ⟨hmeds.trans hmark, ⟨tail0 ++ tail, ?_, ?_⟩, ?_⟩
        · rw [hhist, h0, List.append_assoc]
        · intro e he
          rcases List.mem_append.mp he with he0 | he1
          · rcases htail0 e he0 with ⟨hmid, hact, hst, hdt⟩
            exact ⟨hst, hdt, hact, by rw [hmid]; exact Bool.eq_false_iff.mpr hc⟩
          · rcases htail e he1 with ⟨hst, hdt, hact, hfalse⟩
            refine ⟨hst, hdt, hact, ?_⟩
            cases hb : isMedicationTakenToday a.history today e.medicationId time
            · rfl
            · exfalso
              have h2 := isMedicationTakenToday_append a.history tail0 today e.medicationId time hb
              rw [← h0] at h2
              simp [hfalse] at h2
        · intro m2 hm2
          rcases List.mem_cons.mp hm2 with rfl | hm3
          · rw [hhist]
            refine isMedicationTakenToday_append _ tail today m2.id time ?_
            exact markMedicationTaken_taken a today actualTime (ids n) m2.id time (hres m2 (List.mem_cons_self m2 rest))
          · exact htaken m2 hm3

/-- C9: after resolveAllForTime every medication of the bucket of `time`
reads as taken, and the call appends no entry for any medication id that
already read as taken beforehand. -/
theorem c9_resolveAllForTime_correct (s : AppState) (today actualTime : String)
    (ids : Nat → String) (time : String) :
    (∀ med ∈ lookupGroup (groupMedicationsByTime s.medications) time,
      isMedicationTakenToday (resolveAllForTime s today actualTime ids time).history
        today med.id time = true) ∧
    (∀ i : String, isMedicationTakenToday s.history today i time = true →
      (resolveAllForTime s today actualTime ids time).history.filter
          (fun e => e.medicationId == i) =
        s.history.filter (fun e => e.medicationId == i)) := by
  have hres : ∀ med ∈ lookupGroup (groupMedicationsByTime s.medications) time,
      ∃ m ∈ s.medications, m.id = med.id := by
    intro med hmem
    have hch := (mem_lookupGroup_group s.medications time med).mp hmem
    exact ⟨med, hch.1, rfl⟩
  obtain ⟨hmeds, ⟨tail, hhist, htail⟩, htaken⟩ :=
    resolveFold_spec today actualTime ids time
      (lookupGroup (groupMedicationsByTime s.medications) time) s 0 hres
  constructor
  · intro med hmem
    unfold resolveAllForTime
    exact htaken med hmem
  · intro i hi
    unfold resolveAllForTime
    rw [hhist, List.filter_append]
    have hnil : tail.filter (fun e => e.medicationId == i) = [] := by
      rw [List.filter_eq_nil_iff]
      intro e he
      rcases htail e he with ⟨-, -, -, hf⟩
      simp only [beq_iff_eq]
      intro hei
      rw [hei] at hf
      simp [hf] at hi
    rw [hnil, List.append_nil]

/-- C9 witness: on the sample state the 20:00 slot of the sample
medication is resolved to taken. -/
theorem c9_witness :
    isMedicationTakenToday
      (resolveAllForTime sampleState ("Mon Jan 05 2026") ("t9") (fun n => ("r")) ("20:00")).history
      ("Mon Jan 05 2026") sampleMedication.id ("20:00") = true :=
  (c9_resolveAllForTime_correct sampleState ("Mon Jan 05 2026") ("t9") (fun n => ("r"))
    ("20:00")).1 sampleMedication (by decide)

/-- A pending single-shot timer registered by `setTimeout`, identified by
the captured (medication id, time) pair and the day its target instant
lies on. -/
structure TimerEntry where
  medId : String
  time : String
  targetDay : Nat
deriving DecidableEq, Repr

/-- Numeric value of one digit character, as `Number` does on digits. -/
def charDigit (c : Char) : Nat := c.toNat - 48

/-- Decimal value of a digit string, as `Number` does on well-formed
input. -/
def parseNatChars (cs : List Char) : Nat :=
  cs.foldl (fun n c => n * 10 + charDigit c) 0

/-- Embedding of `time.split(":").map(Number)` on a well-formed `HH:MM`
string. -/
def parseTime (time : String) : Nat × Nat :=
  (parseNatChars (time.data.takeWhile fun c => !(c == ':')),
   parseNatChars ((time.data.dropWhile fun c => !(c == ':')).drop 1))

/-- Embedding of the `setTimeout` registration performed by
`scheduleNotificationForTime(medication, time)`: the arm step computes the
next occurrence of the dose time strictly after now and registers a new
single-shot timer.  The source stores no timer handle and never calls
`clearTimeout`, so arming appends to the pending set unconditionally. -/
def scheduleNotificationForTime (timers : List TimerEntry) (nowDay nowMillis : Nat)
    (medId time : String) : List TimerEntry :=
  timers ++
    [{ medId := medId, time := time,
       targetDay :=
         (scheduleNotificationTarget nowDay nowMillis (parseTime time).1 (parseTime time).2).1 }]

/-- Pending timers of one (medication, time) pair. -/
def timersForPair (timers : List TimerEntry) (medId time : String) : List TimerEntry :=
  timers.filter fun e => e.medId == medId && e.time == time

/-- Fire events of a given day: every pending single-shot timer whose
target lies on that day fires once. -/
def fireEventsOnDay (timers : List TimerEntry) (day : Nat) : List TimerEntry :=
  timers.filter fun e => e.targetDay == day

/-- C4: evaluation at the failing input — arming the pair (m1, 08:00)
twice at 07:00, as two visibility resumes do, leaves two pending timers
for the pair, both targeting the same calendar day, hence two fire events
for the pair within that day: re-arming stacks latent timers instead of
replacing them. -/
theorem c4_rearm_stacks_timers :
    (timersForPair
        (scheduleNotificationForTime
          (scheduleNotificationForTime [] 0 25200000 ("m1") ("08:00"))
          0 25200000 ("m1") ("08:00"))
        ("m1") ("08:00")).length = 2 ∧
    (fireEventsOnDay
        (timersForPair
          (scheduleNotificationForTime
            (scheduleNotificationForTime [] 0 25200000 ("m1") ("08:00"))
            0 25200000 ("m1") ("08:00"))
          ("m1") ("08:00"))
        0).length = 2 := by
  decide

/-- Reminder emitted by `showMedicationNotification`. -/
structure ReminderEvent where
  title : String
  body : String
  tag : String
deriving DecidableEq, Repr

/-- Embedding of `showMedicationNotification(medication, time)`: gated
only on the permission flag; the medication object is the closure-captured
one and no lookup against the current store occurs. -/
def showMedicationNotification (notificationPermission : Bool) (medication : Medication)
    (time : String) : Option ReminderEvent :=
  if !notificationPermission then none
  else
    some { title := "Time for " ++ medication.name,
           body := "Take your " ++ medication.dosage ++ " " ++ medication.name ++ " now",
           tag := "medication-" ++ medication.id ++ "-" ++ time }

/-- Embedding of the `setTimeout` callback of
`scheduleNotificationForTime`: on fire it shows the notification for the
captured medication and unconditionally re-arms the same pair for the
next occurrence; the current medication store is never consulted. -/
def timerFireHandler (notificationPermission : Bool) (timers : List TimerEntry)
    (nowDay nowMillis : Nat) (medication : Medication) (time : String) :
    Option ReminderEvent × List TimerEntry :=
  (showMedicationNotification notificationPermission medication time,
   scheduleNotificationForTime timers nowDay nowMillis medication.id time)

/-- C5: evaluation at the failing input — after the sample medication is
deleted from the store, a latent timer for its 08:00 slot still emits a
reminder on fire (permission granted) and re-arms the pair for the next
day; the handler never re-checks the store. -/
theorem c5_fire_after_delete :
    (deleteMedication sampleState ("med1")).medications = [] ∧
    (timerFireHandler true [] 0 28800000 sampleMedication ("08:00")).1 =
      some { title := "Time for Aspirin", body := "Take your 81mg Aspirin now",
             tag := "medication-med1-08:00" } ∧
    (timerFireHandler true [] 0 28800000 sampleMedication ("08:00")).2 =
      [{ medId := "med1", time := "08:00", targetDay := 1 }] := by
  decide

/-- Parse outcome of one top-level field of an import document: absent,
present but failing the container-type (or truthiness) check of
`importData`, or present with a typed value. -/
inductive ImportField (α : Type) where
  | absent : ImportField α
  | invalid : ImportField α
  | val : α → ImportField α
deriving DecidableEq, Repr

/-- Imported settings object: a record of optional fields spread over the current
settings. -/
structure SettingsPatch where
  soundEnabled : Option Bool
  vibrationEnabled : Option Bool
  highContrast : Option Bool
  textSize : Option String
deriving DecidableEq, Repr

/-- Embedding of the spread merge of imported settings over the current
settings record. -/
def mergeSettings (s : Settings) (p : SettingsPatch) : Settings :=
  { soundEnabled := p.soundEnabled.getD s.soundEnabled,
    vibrationEnabled := p.vibrationEnabled.getD s.vibrationEnabled,
    highContrast := p.highContrast.getD s.highContrast,
    textSize := p.textSize.getD s.textSize }

/-- A parsed import document: the three top-level fields `importData`
inspects. -/
structure ImportDoc where
  medications : ImportField (List Medication)
  history : ImportField (List HistoryEntry)
  settings : ImportField SettingsPatch
deriving DecidableEq, Repr

/-- Embedding of the body of the `reader.onload` handler of `importData`
after a successful `JSON.parse`: each top-level field is checked and
applied independently; medications and history are replaced wholesale
when they are present arrays, settings are spread-merged when present and
of object type. -/
def importData (s : AppState) (doc : ImportDoc) : AppState :=
  let s1 :=
    match doc.medications with
    | ImportField.val v => { s with medications := v }
    | _ => s
  let s2 :=
    match doc.history with
    | ImportField.val v => { s1 with history := v }
    | _ => s1
  match doc.settings with
  | ImportField.val p => { s2 with settings := mergeSettings s2.settings p }
  | _ => s2

/-- Embedding of the whole import including the `JSON.parse` try/catch: a
document that fails to parse leaves the state untouched. -/
def importFile (s : AppState) (parsed : Option ImportDoc) : AppState :=
  match parsed with
  | none => s
  | some doc => importData s doc

/-- Import document whose history field is present but not an array. -/
def malformedDoc : ImportDoc :=
  { medications := ImportField.val [inactiveMedication],
    history := ImportField.invalid,
    settings := ImportField.absent }

/-- State used as concrete import target. -/
def importState : AppState :=
  { medications := [], history := [missedEntry], settings := defaultSettings }

/-- C6 counterexample: a malformed document (history present but not an
array) is not rejected atomically: the medications collection is replaced
while the action log keeps its previous content, so neither does
everything change nor does nothing change, and no up-front whole-shape
validation happens. -/
theorem c6_counterexample :
    malformedDoc.history = ImportField.invalid ∧
    (importData importState malformedDoc).medications ≠ importState.medications ∧
    (importData importState malformedDoc).history = importState.history := by
  decide

/-- C6 amended: the import applies the three top-level fields
independently: a field that is present with the expected container type is
applied (medications and history replaced wholesale, settings
spread-merged over the current settings), a field that is absent or of the
wrong type leaves its collection unchanged while the others are still
applied, and only a document that fails to parse leaves the whole state
untouched. -/
theorem c6_import_fieldwise (s : AppState) (doc : ImportDoc) :
    (∀ v, doc.medications = ImportField.val v → (importData s doc).medications = v) ∧
    (doc.medications = ImportField.absent ∨ doc.medications = ImportField.invalid →
      (importData s doc).medications = s.medications) ∧
    (∀ v, doc.history = ImportField.val v → (importData s doc).history = v) ∧
    (doc.history = ImportField.absent ∨ doc.history = ImportField.invalid →
      (importData s doc).history = s.history) ∧
    (∀ p, doc.settings = ImportField.val p →
      (importData s doc).settings = mergeSettings s.settings p) ∧
    (doc.settings = ImportField.absent ∨ doc.settings = ImportField.invalid →
      (importData s doc).settings = s.settings) ∧
    importFile s none = s := by
  rcases doc with ⟨dm, dh, ds⟩
  cases dm <;> cases dh <;> cases ds <;>
    refine ⟨?_, ?_, ?_, ?_, ?_, ?_, rfl⟩ <;>
      simp [importData]

/-- C6 witness: a well-typed medications array in an otherwise empty
document replaces the medication store. -/
theorem c6_witness :
    (importData importState
        (ImportDoc.mk (ImportField.val [inactiveMedication]) (ImportField.val [])
          (ImportField.absent))).medications = [inactiveMedication] :=
  (c6_import_fieldwise importState
    (ImportDoc.mk (ImportField.val [inactiveMedication]) (ImportField.val [])
      (ImportField.absent))).1 [inactiveMedication] rfl

/-- C1 witness: a concrete log with one matching taken entry makes the
status query true through the characterisation. -/
theorem c1_witness :
    isMedicationTakenToday [takenEntry] ("Mon Jan 05 2026") ("med1") ("08:00") = true :=
  (c1_statusOf_taken_iff [takenEntry] ("Mon Jan 05 2026") ("med1") ("08:00")).mpr
    ⟨takenEntry, by decide, by decide, by decide, by decide, by decide⟩
